import Mathlib

/-!
Verification of `record_build.c`, a one-pass parser for `strace -f` output that
reconstructs per-target dependency lists and materializes a sandbox copy of the
dependencies.  Every definition below is a shallow embedding transcribed from the
C source (`src/record_build.c`); where the C exhibits undefined behaviour the
modelling choice is stated in the doc comment of the definition concerned.

Strings are modelled as `List Char` (the C code works on NUL-terminated `char`
buffers); machine integers hold small pids and indices and are modelled as
`Int`/`Nat` (no overflow is reachable on the inputs considered).
-/

set_option maxRecDepth 20000

/-- Convert a string literal to the `List Char` representation used throughout. -/
def chars (s : String) : List Char := s.data

/-- Boolean prefix test on character lists (the comparison loop underlying the
`strstr` model below; matches `strncmp(hay, pat, strlen(pat)) == 0`). -/
def isPfx : List Char → List Char → Bool
  | [], _ => true
  | _ :: _, [] => false
  | a :: as, b :: bs => a = b && isPfx as bs

/-- C `strstr`: returns the suffix of `hay` starting at the first occurrence of
`pat`, or `none` when `pat` does not occur (C returns `NULL`).  An empty
pattern matches at the start, as in C. -/
def strstr (hay pat : List Char) : Option (List Char) :=
  if isPfx pat hay then some hay
  else
    match hay with
    | [] => none
    | _ :: t => strstr t pat

/-- `strstr hay pat ≠ NULL`, the form in which the C code consumes most
`strstr` results. -/
def containsStr (hay pat : List Char) : Bool := (strstr hay pat).isSome

theorem isPfx_iff (p l : List Char) : isPfx p l = true ↔ ∃ t, p ++ t = l := by
  induction p generalizing l with
  | nil => simp [isPfx]
  | cons a as ih =>
    cases l with
    | nil => simp [isPfx]
    | cons b bs =>
      simp only [isPfx, Bool.and_eq_true, decide_eq_true_eq, ih, List.cons_append,
        List.cons.injEq]
      constructor
      · rintro ⟨rfl, t, rfl⟩; exact ⟨t, rfl, rfl⟩
      · rintro ⟨t, rfl, rfl⟩; exact ⟨rfl, t, rfl⟩

theorem strstr_eq_some (hay pat tl : List Char) (h : strstr hay pat = some tl) :
    (∃ pre, pre ++ tl = hay) ∧ ∃ rest, pat ++ rest = tl := by
  induction hay with
  | nil =>
    rw [strstr] at h
    split at h
    · exact ⟨⟨[], by simpa using h.symm⟩, by
        rcases (isPfx_iff pat []).mp (by assumption) with ⟨t, ht⟩
        exact ⟨t, by simp [ht, ← Option.some.injEq, ← h]⟩⟩
    · exact absurd h (by simp)
  | cons c t ih =>
    rw [strstr] at h
    split at h
    · rcases (isPfx_iff pat (c :: t)).mp (by assumption) with ⟨r, hr⟩
      cases h
      exact ⟨⟨[], rfl⟩, r, hr⟩
    · rcases ih h with ⟨⟨pre, hpre⟩, rest, hrest⟩
      exact ⟨⟨c :: pre, by simp [hpre]⟩, rest, hrest⟩

theorem containsStr_iff (hay pat : List Char) :
    containsStr hay pat = true ↔ ∃ pre post, pre ++ pat ++ post = hay := by
  unfold containsStr
  induction hay with
  | nil =>
    rw [strstr]
    split
    · rcases (isPfx_iff pat []).mp (by assumption) with ⟨t, ht⟩
      rcases List.append_eq_nil.mp ht with ⟨rfl, rfl⟩
      simp
    · constructor
      · intro h; simp at h
      · rintro ⟨pre, post, h⟩
        rcases List.append_eq_nil.mp h with ⟨h2, rfl⟩
        rcases List.append_eq_nil.mp h2 with ⟨rfl, rfl⟩
        simp [isPfx] at *
  | cons c t ih =>
    rw [strstr]
    split
    · rcases (isPfx_iff pat (c :: t)).mp (by assumption) with ⟨r, hr⟩
      simpa using ⟨[], r, by simpa using hr⟩
    · rename_i hnp
      rw [ih]
      constructor
      · rintro ⟨pre, post, rfl⟩
        exact ⟨c :: pre, post, rfl⟩
      · rintro ⟨pre, post, h⟩
        cases pre with
        | nil =>
          exfalso
          apply hnp
          rw [isPfx_iff]
          exact ⟨post, by simpa using h⟩
        | cons d pre' =>
          rcases List.cons.injEq .. ▸ h with ⟨rfl, h'⟩
          exact ⟨pre', post, by simpa using h'⟩

/-- Substring containment is monotone: if the pattern occurs in `sub` and `sub`
occurs contiguously inside `sup`, the pattern occurs in `sup`. -/
theorem containsStr_mono (sub sup pat : List Char)
    (h : containsStr sub pat = true) (pre post : List Char)
    (hsub : pre ++ sub ++ post = sup) : containsStr sup pat = true := by
  rcases (containsStr_iff sub pat).mp h with ⟨a, b, hab⟩
  refine (containsStr_iff sup pat).mpr ⟨pre ++ a, b ++ post, ?_⟩
  subst hsub; subst hab; simp

/-! ## Dependency lists (`depnode` / `TARGET_add_dep`, record_build.c:48-67) -/

/-- `TARGET_add_dep`: walks the target's dependency list comparing with `strcmp`;
if the exact string is already present it returns unchanged, otherwise the new
dependency is appended at the tail. -/
def TARGET_add_dep (deps : List (List Char)) (new_dep : List Char) : List (List Char) :=
  if new_dep ∈ deps then deps else deps ++ [new_dep]

theorem mem_TARGET_add_dep (deps : List (List Char)) (d x : List Char) :
    x ∈ TARGET_add_dep deps d ↔ x ∈ deps ∨ x = d := by
  unfold TARGET_add_dep
  split
  · rename_i hmem
    constructor
    · exact fun h => Or.inl h
    · rintro (h | rfl)
      · exact h
      · exact hmem
  · simp

/-- Specification-side definition: keep the first occurrence of every string,
in order of first appearance. -/
def firstOccur : List (List Char) → List (List Char)
  | [] => []
  | x :: xs => x :: firstOccur (xs.filter (fun y => y ≠ x))
termination_by l => l.length
decreasing_by
  simp only [List.length_cons]
  exact Nat.lt_succ_of_le (List.length_filter_le _ _)

theorem mem_firstOccur (l : List (List Char)) : ∀ x, x ∈ firstOccur l → x ∈ l := by
  induction l using firstOccur.induct with
  | case1 =>
    intro x h
    simp [firstOccur] at h
  | case2 y ys ih =>
    intro x h
    rw [firstOccur] at h
    rcases List.mem_cons.mp h with h | h
    · simp [h]
    · exact List.mem_cons_of_mem _ ((List.mem_filter.mp (ih x h)).1)

theorem nodup_firstOccur (l : List (List Char)) : (firstOccur l).Nodup := by
  induction l using firstOccur.induct with
  | case1 => simp [firstOccur]
  | case2 y ys ih =>
    rw [firstOccur]
    refine List.nodup_cons.mpr ⟨fun hmem => ?_, ih⟩
    have := (List.mem_filter.mp (mem_firstOccur _ _ hmem)).2
    simp at this

theorem foldl_TARGET_add_dep (xs : List (List Char)) (acc : List (List Char)) :
    xs.foldl TARGET_add_dep acc
      = acc ++ firstOccur (xs.filter (fun y => decide (y ∉ acc))) := by
  induction xs generalizing acc with
  | nil => simp [firstOccur]
  | cons x xs ih =>
    simp only [List.foldl_cons]
    by_cases hx : x ∈ acc
    · have h1 : TARGET_add_dep acc x = acc := by simp [TARGET_add_dep, hx]
      rw [h1, ih]
      congr 2
      simp only [List.filter_cons]
      rw [if_neg (by simp [hx])]
    · have h1 : TARGET_add_dep acc x = acc ++ [x] := by simp [TARGET_add_dep, hx]
      rw [h1, ih]
      have hfc : (x :: xs).filter (fun y => decide (y ∉ acc))
          = x :: xs.filter (fun y => decide (y ∉ acc)) := by
        simp only [List.filter_cons]
        rw [if_pos (by simp [hx])]
      rw [hfc, firstOccur]
      have hff : (xs.filter (fun y => decide (y ∉ acc))).filter (fun y => y ≠ x)
          = xs.filter (fun y => decide (y ∉ acc ++ [x])) := by
        rw [List.filter_filter]
        apply List.filter_congr
        intro y _
        by_cases h1 : y = x <;> by_cases h2 : y ∈ acc <;>
          simp [h1, h2, List.mem_append]
      rw [hff]
      simp [List.append_assoc]

/-! ## Source-file extraction (`extract_sources`, record_build.c:299-368) -/

/-- The backward walk in `extract_sources`: starting with `fname` at index `f`
(the suffix match position) the C loop
`for (i = 0; i < fname - line; i++) { if (*(fname-1) == '"') break; fname--; fname_len++; }`
re-evaluates `fname - line` after each decrement, so it stops either at a
quote or once the step count `i` reaches the current index.  Returns the final
index and the final `fname_len`. -/
def walk_back (line : List Char) : Nat → Nat → Nat → Nat × Nat
  | 0, _, len => (0, len)
  | f + 1, i, len =>
    if i < f + 1 then
      if line.get? f = some '"' then (f + 1, len)
      else walk_back line f (i + 1) (len + 1)
    else (f + 1, len)

/-- One of the four identical blocks of `extract_sources`: find the first
occurrence of `pat`, walk backwards towards the opening quote, and return the
null-terminated copy (here: the slice of `line` of length `fname_len` starting
at the final position). -/
def suffix_block (line pat : List Char) : Option (List Char) :=
  match strstr line pat with
  | none => none
  | some tl =>
    let d := line.length - tl.length
    let r := walk_back line d 0 pat.length
    some ((line.drop r.1).take r.2)

/-- `extract_sources`: checks `.cc` first, then `.c`, then `.o`, then `.s`,
returning the first match.  When no suffix matches, the C function falls off
the end without executing a `return` statement; every later use of the value is
undefined behaviour, modelled here as `none` (callers below treat `none` as an
aborted run). -/
def extract_sources (line : List Char) : Option (List Char) :=
  match suffix_block line (chars (".cc")) with
  | some s => some s
  | none =>
    match suffix_block line (chars (".c")) with
    | some s => some s
    | none =>
      match suffix_block line (chars (".o")) with
      | some s => some s
      | none => suffix_block line (chars (".s"))

/-! ## Target-name parsing (`parse_target_from_cmd`, record_build.c:276-286) -/

/-- `parse_target_from_cmd`: `strstr(cmd, "-o ")`, skip the three characters
`-o `, and scan forward to the next space.  When `-o ` is absent, `strstr`
returns `NULL` and the C code passes it to `strdup`, dereferencing a null
pointer; modelled as `none` (a crashed run).  The forward scan
`while (target_copy[index] != ' ')` has no bound; when no space follows, the C
scans past the terminator (undefined); our traces always have a trailing
space, and the model stops at the end of the list. -/
def parse_target_from_cmd (cmd : List Char) : Option (List Char) :=
  match strstr cmd (chars ("-o ")) with
  | none => none
  | some tl => some ((tl.drop 3).takeWhile (fun c => c ≠ ' '))

/-- `is_desired_cmd` (record_build.c:291-294). -/
def is_desired_cmd (cmd : List Char) : Bool :=
  cmd = chars ("gcc") || cmd = chars ("g++") || cmd = chars ("as") || cmd = chars ("ld")

/-! ## Sandbox materialization (`TARGET_copy_deps`, record_build.c:151-207) -/

/-- The `fread`/`fwrite` loop of `TARGET_copy_deps`: repeatedly read up to 512
bytes and write out exactly the bytes read, until a read returns 0 bytes. -/
def copyLoop (src : List Nat) : List Nat :=
  if src = [] then [] else src.take 512 ++ copyLoop (src.drop 512)
termination_by src.length
decreasing_by
  rename_i h
  rw [List.length_drop]
  exact Nat.sub_lt (List.length_pos.mpr h) (by norm_num)

theorem copyLoop_id (src : List Nat) : copyLoop src = src := by
  induction src using copyLoop.induct with
  | case1 => rw [copyLoop]; simp
  | case2 s hne ih => rw [copyLoop, if_neg hne, ih, List.take_append_drop]

/-- A file system keyed by path, mapping to byte contents; a missing file is a
path `fopen` fails on. -/
def FS : Type := List Char → Option (List Nat)

/-- Writing a file into a file system. -/
def fsWrite (fs : FS) (p : List Char) (v : List Nat) : FS :=
  fun q => if q = p then some v else fs q

/-- The sandbox path of a dependency (record_build.c:164-173): the sandbox
directory, a `/` separator when the dependency path is not absolute, then the
dependency path itself. -/
def new_path (sandbox_pwd dep : List Char) : List Char :=
  if dep.head? = some '/' then sandbox_pwd ++ dep else sandbox_pwd ++ '/' :: dep

/-- `TARGET_copy_deps`: for each dependency in order, open the source file (a
failure is reported and the dependency skipped), open the sandbox copy for
writing (`canWrite` models that `fopen(new_path, "w")` succeeding; a failure is
reported and the dependency skipped), then run the 512-byte copy loop.
Directory creation (`dep_mkdirs`) affects only directories, not file contents,
and is not modelled. -/
def TARGET_copy_deps (deps : List (List Char)) (fs : FS) (canWrite : List Char → Bool)
    (sandbox_pwd : List Char) (sb : FS) : FS :=
  match deps with
  | [] => sb
  | d :: rest =>
    match fs d with
    | none => TARGET_copy_deps rest fs canWrite sandbox_pwd sb
    | some bytes =>
      let np := new_path sandbox_pwd d
      if canWrite np then
        TARGET_copy_deps rest fs canWrite sandbox_pwd (fsWrite sb np (copyLoop bytes))
      else
        TARGET_copy_deps rest fs canWrite sandbox_pwd sb

/-! ## Output-file setup (record_build.c:407-439 and 476-489) -/

/-- Outcome of the output-file opening phase of `main`. -/
inductive SetupOutcome where
  | exitFail
  | proceed (depFileOpen : Bool) (mkfileOpen : Bool)
deriving DecidableEq

/-- The opening sequence of `main`: the trace input file, the command log and
the source-file list each exit with status 1 on `fopen` failure; the
`dependency.txt` manifest and the sandbox `Makefile` only print a diagnostic on
failure and processing proceeds. -/
def setup_files (inOk cmdsOk srcOk depOk mkOk : Bool) : SetupOutcome :=
  if !inOk then .exitFail
  else if !cmdsOk then .exitFail
  else if !srcOk then .exitFail
  else .proceed depOk mkOk

/-! ## Pid registry (`list` / `LIST_find_pid` / `LIST_add`, record_build.c:212-266) -/

/-- `LIST_find_pid`: first node whose pid matches, returning its stored path. -/
def LIST_find_pid (l : List (Int × List Char)) (pid : Int) : Option (List Char) :=
  match l with
  | [] => none
  | (p, fp) :: rest => if p = pid then some fp else LIST_find_pid rest pid

/-- Update helper for `LIST_add`: replace the path of the first node whose pid
matches. -/
def LIST_update_first (l : List (Int × List Char)) (pid : Int) (fp : List Char) :
    List (Int × List Char) :=
  match l with
  | [] => []
  | (p, fp0) :: rest =>
    if p = pid then (p, fp) :: rest else (p, fp0) :: LIST_update_first rest pid fp

/-- `LIST_add`: append a new node at the tail when the pid is absent, otherwise
update the existing node's path. -/
def LIST_add (l : List (Int × List Char)) (pid : Int) (fp : List Char) :
    List (Int × List Char) :=
  match LIST_find_pid l pid with
  | none => l ++ [(pid, fp)]
  | some _ => LIST_update_first l pid fp

/-! ## Line scanning (`main`, record_build.c:495-507) -/

/-- Whitespace as matched by a whitespace directive or `%d` skipping in
`sscanf`. -/
def isWsChar (c : Char) : Bool := c = ' ' || c = '\t' || c = '\n'

/-- Read a non-empty run of decimal digits, returning the value and the rest. -/
def read_digits : List Char → Nat → Bool → Option (Nat × List Char)
  | [], acc, seen => if seen then some (acc, []) else none
  | c :: cs, acc, seen =>
    if c.isDigit then read_digits cs (acc * 10 + (c.toNat - 48)) true
    else if seen then some (acc, c :: cs) else none

/-- The `sscanf(buffer, "%d execve(\"%[^\n]\n", &pid, args)` call: `%d` skips
whitespace and converts a digit run — and this conversion is stored in `pid`
even when the rest of the format subsequently fails to match, which is why the
first component is `some` for every line that begins with an integer.  The
second component is the captured `args` text, present only when the literal
` execve("` also matches (return value 2).  Sign characters accepted by `%d`
are not modelled (pids in a trace are unsigned). -/
def sscanf_execve (line : List Char) : Option Int × Option (List Char) :=
  match read_digits (line.dropWhile isWsChar) 0 false with
  | none => (none, none)
  | some (n, rest) =>
    let rest := rest.dropWhile isWsChar
    if isPfx (chars ("execve(\"")) rest then (some (Int.ofNat n), some (rest.drop 8))
    else (some (Int.ofNat n), none)

/-- The bracket scan of `main` (record_build.c:543-553): a single pass that
records the first `[` seen while none was recorded yet, and stops at the first
`]`.  Returns (index of first `[`, index of first `]`); a component is `none`
when the character was not found (`-1` in the C). -/
def bracket_scan_go (i : Nat) (lb : Option Nat) : List Char → Option Nat × Option Nat
  | [] => (lb, none)
  | c :: cs =>
    if c = ']' then (lb, some i)
    else bracket_scan_go (i + 1) (if lb.isNone && c = '[' then some i else lb) cs

def bracket_scan (args : List Char) : Option Nat × Option Nat :=
  bracket_scan_go 0 none args

/-- Executable-name extraction (record_build.c:509-530): `command_end_index` is
the index of the first `"` (or the end of the string), `command_start_index`
is one past the last `/` before it (or 0), and the command name is the slice
between them. -/
def last_slash_scan (args : List Char) : Nat → Nat
  | 0 => 0
  | i + 1 => if args.get? i = some '/' then i + 1 else last_slash_scan args i

def parse_cmd_name (args : List Char) : List Char :=
  let endI := (args.findIdx? (fun c => c = '"')).getD args.length
  let startI := last_slash_scan args endI
  (args.take endI).drop startI

/-- The cleaned command (record_build.c:570-587): the characters of `args`
strictly between the brackets, with every `"` and `,` dropped (`'\0'` is also
skipped by the C but cannot occur in a captured line).  When no `]` was found
the C copy loop `for (i = lbracket_index + 1; i < rbracket_index; i++)` runs
zero times (`rbracket_index` stays `-1`). -/
def mk_cmd_clean (args : List Char) (lbOpt rbOpt : Option Nat) : List Char :=
  match rbOpt with
  | none => []
  | some rb =>
    let start := match lbOpt with | some lb => lb + 1 | none => 0
    ((args.take rb).drop start).filter (fun c => !(c = '"' || c = ','))

/-- The buffer handed to `parse_target_from_cmd` (record_build.c:572-586): the
cleaned characters occupy positions `0..n-1` (`n = cmd_index`), position
`rbracket_index` holds the terminator written on line 585, and the raw
characters `args[i]` written on line 573 survive at the positions in between.
(Positions of the raw region below `lbracket_index + 1` were never written in
this iteration and hold stale buffer contents in the C; they are modelled as
the raw `args` characters.  No line considered in this file reaches that
region: the cleaned command is always longer than `lbracket_index`.) -/
def mk_cmd_hybrid (args : List Char) (lbOpt rbOpt : Option Nat) : List Char :=
  match rbOpt with
  | none => []
  | some rb =>
    let cleaned := mk_cmd_clean args lbOpt rbOpt
    cleaned ++ (args.take rb).drop cleaned.length

/-! ## The builder state machine (`main`, record_build.c:441-655) -/

/-- One make target (`struct targetstruct`): output name, cleaned command,
ordered dependency list.  `malloc` leaves `head`/`tail` uninitialized in the C;
the model takes a fresh target's dependency list to be empty, which is the only
reading under which the program's list operations are meaningful. -/
structure BTarget where
  target_name : List Char
  cmd : List Char
  deps : List (List Char)
deriving DecidableEq, Repr

/-- The mutable state of `main`'s parsing loop.  `pwd` is the single global
working-directory variable (`char *pwd`); `fps_list` is the pid registry;
`finalized` records targets in the order `emit_target_to_file` is called on
them; `sourcesOut` records the lines written to `source_files.txt`; `cmdsOut`
the per-invocation lines of `commands_cache.txt`. -/
structure BuildState where
  pid : Int
  saved_pid : Int
  vfork : Bool
  pwd : List Char
  fps_list : List (Int × List Char)
  cur_target : Option BTarget
  finalized : List BTarget
  sourcesOut : List (List Char)
  cmdsOut : List (List Char)
deriving DecidableEq, Repr

/-- Initial state (record_build.c:441-466): `pid = -1`, `saved_pid = -1`,
`vfork = false`, `pwd` from `getcwd`, empty registry, no current target. -/
def initState (pwd0 : List Char) : BuildState :=
  { pid := -1, saved_pid := -1, vfork := false, pwd := pwd0, fps_list := [],
    cur_target := none, finalized := [], sourcesOut := [], cmdsOut := [] }

/-- Finalization of the current target (record_build.c:556-569 and 648-655):
`emit_target_to_file`, `TARGET_copy_deps` and `emit_target_to_makefile` are
called on it; in the model it moves to the `finalized` sequence. -/
def finalize_cur (st : BuildState) : BuildState :=
  match st.cur_target with
  | some t => { st with finalized := st.finalized ++ [t], cur_target := none }
  | none => st

/-- The openat denylist (record_build.c:622-624): the dependency is recorded
only when none of these fragments occurs in the text from `openat(` onwards. -/
def openat_denylist (tl : List Char) : Bool :=
  containsStr tl (chars ("locale")) || containsStr tl (chars ("/etc/")) ||
  containsStr tl (chars ("/types/")) || containsStr tl (chars (".cache")) ||
  containsStr tl (chars ("/bits/")) || containsStr tl (chars ("/tmp/"))

/-- The recorded openat path (record_build.c:625-631): 18 characters
(`openat(AT_FDCWD, "`) are skipped and the path is cut at the next `"`. -/
def openat_path (tl : List Char) : List Char :=
  (tl.drop 18).takeWhile (fun c => c ≠ '"')

/-- The vfork flag checks (record_build.c:636-642). -/
def vfork_flags (st : BuildState) (line : List Char) : BuildState :=
  if containsStr line (chars ("vfork(")) && containsStr line (chars ("unfinished")) then
    { st with vfork := true }
  else if containsStr line (chars ("vfork resumed")) then
    { st with vfork := false }
  else st

/-- The else-branch of the line dispatch (record_build.c:603-644): `chdir`
lines overwrite the single global `pwd` (the C keeps a pointer into the line
buffer; the model keeps the value captured from this line, the reading under
which the stored directory is meaningful); otherwise `openat` lines may add a
dependency to the current target; otherwise the vfork flags are checked.  When
the add is reached with no current target the C dereferences a null `target`
pointer: modelled as `none` (a crashed run). -/
def else_branch (st : BuildState) (line : List Char) : Option BuildState :=
  match strstr line (chars ("chdir(")) with
  | some tl => some { st with pwd := (tl.drop 7).takeWhile (fun c => c ≠ '"') }
  | none =>
    match strstr line (chars ("openat(")) with
    | some tl =>
      if !containsStr tl (chars ("ENOENT")) &&
         ((LIST_find_pid st.fps_list st.pid).isSome || containsStr tl (chars (".h"))) then
        if !openat_denylist tl then
          match st.cur_target with
          | some t =>
            some { st with
              cur_target := some { t with deps := TARGET_add_dep t.deps (openat_path tl) } }
          | none => none
        else some st
      else some (vfork_flags st line)
    | none => some (vfork_flags st line)

/-- The gcc/g++ block of the execve branch (record_build.c:555-596): finalize
the previous target, write the cleaned command to the command log, parse the
new target's name from the hybrid buffer (a `none` models the crash when
`-o ` is absent), and start the new current target; the extracted source is
added as its first dependency when the pid is registered (it always is at this
point, having been added on line 534). -/
def exec_new_target (st : BuildState) (args source : List Char) : Option BuildState :=
  let st := finalize_cur st
  let br := bracket_scan args
  let cleaned := mk_cmd_clean args br.1 br.2
  let hybrid := mk_cmd_hybrid args br.1 br.2
  let st := { st with cmdsOut := st.cmdsOut ++ [cleaned] }
  match parse_target_from_cmd hybrid with
  | none => none
  | some tname =>
    let t0 : BTarget := { target_name := tname, cmd := cleaned, deps := [] }
    let t1 := if (LIST_find_pid st.fps_list st.pid).isSome then
                { t0 with deps := TARGET_add_dep t0.deps source }
              else t0
    some { st with cur_target := some t1 }

/-- The vfork pid substitution (record_build.c:501-507): while the vfork flag
is set the saved pid replaces the line's pid; otherwise the line's pid is
saved. -/
def exec_pid_fixup (st : BuildState) : BuildState :=
  if st.vfork then { st with pid := st.saved_pid }
  else { st with saved_pid := st.pid }

/-- Pid registration (record_build.c:533-535): gcc/g++ pids enter the
registry. -/
def exec_register (st : BuildState) (cmd_name : List Char) : BuildState :=
  if cmd_name = chars ("gcc") || cmd_name = chars ("g++") then
    { st with fps_list := LIST_add st.fps_list st.pid cmd_name }
  else st

/-- The `source_files.txt` line (record_build.c:537-540): `pwd`, a slash, the
extracted source. -/
def exec_log_source (st : BuildState) (source : List Char) : BuildState :=
  { st with sourcesOut := st.sourcesOut ++ [st.pwd ++ '/' :: source] }

/-- The execve branch (record_build.c:497-601), entered when the line matched
the execve format and its text does not contain `ENOENT`.  `st.pid` already
holds the pid stored by `sscanf`.  A `none` result models the undefined
behaviour noted at `extract_sources` (no suffix matched) and at
`parse_target_from_cmd` (no `-o ` in the command). -/
def exec_branch (st : BuildState) (args : List Char) : Option BuildState :=
  let st1 := exec_pid_fixup st
  let cmd_name := parse_cmd_name args
  if is_desired_cmd cmd_name then
    let st2 := exec_register st1 cmd_name
    match extract_sources args with
    | none => none
    | some source =>
      let st3 := exec_log_source st2 source
      if cmd_name = chars ("gcc") || cmd_name = chars ("g++") then
        exec_new_target st3 args source
      else some st3
  else some st1

/-- Processing of one line of the trace (the body of the while loop,
record_build.c:495-646).  The `%d` conversion of the `sscanf` stores into
`pid` whenever the line begins with an integer, even when the full execve
format does not match; an execve-format line whose text contains `ENOENT`
falls through to the else-branch exactly as in the C. -/
def stepLine (st : BuildState) (line : List Char) : Option BuildState :=
  let pr := sscanf_execve line
  let st1 := match pr.1 with
    | some p => { st with pid := p }
    | none => st
  match pr.2 with
  | some args =>
    if containsStr args (chars ("ENOENT")) then else_branch st1 line
    else exec_branch st1 args
  | none => else_branch st1 line

/-- Run the loop over all lines of the trace file. -/
def runLines (st : BuildState) : List (List Char) → Option BuildState
  | [] => some st
  | l :: ls =>
    match stepLine st l with
    | none => none
    | some st' => runLines st' ls

/-- The whole pass: run every line, then finalize the last current target
(record_build.c:648-655). -/
def runTrace (st : BuildState) (lines : List (List Char)) : Option BuildState :=
  (runLines st lines).map finalize_cur

/-! ## Concrete traces used in the claim analyses -/

/-- A compiler invocation followed by a successful open, by an unrelated pid,
of a path that contains `.h` but does not end in a header suffix. -/
def c1_trace : List (List Char) :=
  [chars ("1 execve(\"/usr/bin/gcc\", [\"gcc\", \"-o\", \"prog\", \"main.c\"]) = 0"),
   chars ("99 openat(AT_FDCWD, \"config.h.in\", O_RDONLY) = 3")]

/-- A `chdir` by pid 2 followed by a compiler invocation by pid 1 naming a
relative source file. -/
def c2_trace : List (List Char) :=
  [chars ("2 chdir(\"/other\") = 0"),
   chars ("1 execve(\"/usr/bin/gcc\", [\"gcc\", \"-o\", \"prog\", \"main.c\"]) = 0")]

/-- A compiler invocation whose argument text has no `-o ` argument. -/
def c3_trace : List (List Char) :=
  [chars ("1 execve(\"/usr/bin/gcc\", [\"gcc\", \"-c\", \"main.c\", \"extra1.c\"]) = 0")]

/-- A compiler invocation followed by the compiler process opening its own
output file for writing. -/
def c5_trace : List (List Char) :=
  [chars ("1 execve(\"/usr/bin/gcc\", [\"gcc\", \"-o\", \"prog\", \"main.c\"]) = 0"),
   chars ("1 openat(AT_FDCWD, \"prog\", O_WRONLY|O_CREAT|O_TRUNC, 0666) = 3")]

/-- A compiler invocation whose extracted source file lives under `/tmp/`. -/
def c7_trace : List (List Char) :=
  [chars ("1 execve(\"/usr/bin/gcc\", [\"gcc\", \"-o\", \"prog\", \"/tmp/main.c\"]) = 0")]

/-- A compiler invocation followed by a successful open, by an untracked pid,
of a path without `.h`; under the claim the open would be attributed to the
tracked execve pid 1 and recorded. -/
def c10_trace : List (List Char) :=
  [chars ("1 execve(\"/usr/bin/gcc\", [\"gcc\", \"-o\", \"prog\", \"main.c\"]) = 0"),
   chars ("99 openat(AT_FDCWD, \"foo.bin\", O_RDONLY) = 3")]

/-- C1 counterexample: on `c1_trace` the open is performed by pid 99, which is
not a tracked compiler process (the registry holds only pid 1), and the opened
path `config.h.in` does not end in the header suffix `.h` — yet the path is
recorded as a dependency of the finalized target, because the code tests
`strstr(openat, ".h")`, a substring check, not a suffix check. -/
theorem c1_substring_not_suffix :
    ((runTrace (initState (chars ("/start"))) c1_trace).map
        (fun s => (s.finalized.map (fun t => t.deps), s.fps_list)))
      = some ([[chars ("main.c"), chars ("config.h.in")]], [(1, chars ("gcc"))]) ∧
    List.isSuffixOf (chars (".h")) (chars ("config.h.in")) = false := by
  decide

/-- C2, evaluated at the failing input: the source file named by pid 1's
compiler invocation is resolved against the directory from pid 2's `chdir` —
the code keeps a single global working directory, not one per pid. -/
theorem c2_global_pwd_eval :
    (runTrace (initState (chars ("/start"))) c2_trace).map (fun s => s.sourcesOut)
      = some [chars ("/other/main.c")] := by
  decide

/-- C3, evaluated at the failing input: on a compiler invocation with no `-o `
argument, `strstr` returns `NULL`, `parse_target_from_cmd` passes it to
`strdup`, and the run crashes (modelled `none`); no diagnostic is printed and
the rest of the trace is never processed. -/
theorem c3_missing_output_flag_crashes :
    parse_target_from_cmd (chars ("gcc -c main.c extra1.c ")) = none ∧
    runTrace (initState (chars ("/build"))) c3_trace = none := by
  decide

/-- C4, evaluated at the failing input: when `dependency.txt` cannot be opened
(and the other files can), `main` prints a diagnostic but does not exit — the
`dep_file` check (record_build.c:435-439) has no `exit(1)`, unlike the three
checks before it. -/
theorem c4_depfile_not_fatal :
    setup_files true true true false true = SetupOutcome.proceed false true ∧
    setup_files false true true true true = SetupOutcome.exitFail ∧
    setup_files true false true true true = SetupOutcome.exitFail ∧
    setup_files true true false true true = SetupOutcome.exitFail := by
  decide

/-- C5, evaluated at the failing input: the finalized target named `prog`
contains `prog` itself in its dependency list — the tracked compiler pid's
successful open of its own output file is recorded like any other open, and
nothing filters the target's own name. -/
theorem c5_output_is_own_dep :
    (runTrace (initState (chars ("/start"))) c5_trace).map
        (fun s => s.finalized.map (fun t => (t.target_name, t.deps)))
      = some [(chars ("prog"), [chars ("main.c"), chars ("prog")])] := by
  decide

/-- C7 counterexample: a source path under `/tmp/` — a denylisted fragment —
appears in the finalized target's dependency list, because the denylist is
applied only on the `openat` rule and not on compiler-invocation source
extraction (record_build.c:593-595). -/
theorem c7_denylist_not_on_sources :
    ((runTrace (initState (chars ("/start"))) c7_trace).map
        (fun s => s.finalized.map (fun t => t.deps)))
      = some [[chars ("/tmp/main.c")]] ∧
    containsStr (chars ("/tmp/main.c")) (chars ("/tmp/")) = true := by
  decide

/-- C8 counterexample: on a line whose opening quote sits more than half way
back from the `.cc` match, the backward walk stops early and the returned
name is `defgh.cc`, a proper suffix of the quoted token `abcdefgh.cc` — the
walk does not always reach the opening quote. -/
theorem c8_walk_stops_early :
    extract_sources (chars ("\"abcdefgh.cc")) = some (chars ("defgh.cc")) ∧
    chars ("\"abcdefgh.cc") = '"' :: chars ("abcdefgh.cc") ∧
    chars ("defgh.cc") ≠ chars ("abcdefgh.cc") := by
  decide

/-- C10 counterexample: after the tracked compiler execve of pid 1, the open
of `foo.bin` reported on a line with pid 99 is *not* attributed to pid 1: the
`%d` of the `sscanf` stores 99 even though the execve format fails, so the
tracked-pid test uses 99 and the (successful, non-denylisted) open is not
recorded — under the claim it would have been recorded under pid 1. -/
theorem c10_openat_line_pid_used :
    ((runTrace (initState (chars ("/start"))) c10_trace).map
        (fun s => (s.finalized.map (fun t => t.deps), s.fps_list)))
      = some ([[chars ("main.c")]], [(1, chars ("gcc"))]) ∧
    containsStr (chars ("99 openat(AT_FDCWD, \"foo.bin\", O_RDONLY) = 3")) (chars ("ENOENT"))
      = false := by
  decide

/-! ## Duplicate-freedom of dependency lists (C6) -/

theorem TARGET_add_dep_nodup (l : List (List Char)) (d : List Char) (h : l.Nodup) :
    (TARGET_add_dep l d).Nodup := by
  unfold TARGET_add_dep
  split
  · exact h
  · rename_i hm
    simp [List.nodup_append, h, hm]

/-- Every dependency list reachable in the builder state is duplicate-free. -/
def depsNodup (st : BuildState) : Prop :=
  (∀ t, t ∈ st.finalized → t.deps.Nodup) ∧ (∀ t, st.cur_target = some t → t.deps.Nodup)

theorem vfork_flags_targets (st : BuildState) (line : List Char) :
    (vfork_flags st line).cur_target = st.cur_target ∧
    (vfork_flags st line).finalized = st.finalized := by
  unfold vfork_flags
  split
  · exact ⟨rfl, rfl⟩
  · split
    · exact ⟨rfl, rfl⟩
    · exact ⟨rfl, rfl⟩

theorem finalize_cur_nodup (st : BuildState) (h : depsNodup st) :
    depsNodup (finalize_cur st) := by
  rcases h with ⟨hf, hc⟩
  cases hct : st.cur_target with
  | none =>
    simp only [finalize_cur, hct]
    exact ⟨hf, hc⟩
  | some t =>
    simp only [finalize_cur, hct]
    refine ⟨?_, ?_⟩
    · intro t' ht'
      rcases List.mem_append.mp ht' with h' | h'
      · exact hf t' h'
      · rcases List.mem_singleton.mp h' with rfl
        exact hc _ hct
    · intro t' ht'
      simp at ht'

theorem else_branch_nodup (st : BuildState) (line : List Char) (st' : BuildState)
    (h : else_branch st line = some st') (hi : depsNodup st) : depsNodup st' := by
  unfold else_branch at h
  split at h
  · cases h
    exact hi
  · split at h
    · split at h
      · split at h
        · split at h
          · rename_i t ht
            cases h
            refine ⟨hi.1, ?_⟩
            intro t' ht'
            cases Option.some.injEq .. ▸ ht'
            exact TARGET_add_dep_nodup _ _ (hi.2 t ht)
          · exact absurd h (by simp)
        · cases h
          exact hi
      · cases h
        rcases vfork_flags_targets st line with ⟨h1, h2⟩
        exact ⟨fun t ht => hi.1 t (h2 ▸ ht), fun t ht => hi.2 t (h1 ▸ ht)⟩
    · cases h
      rcases vfork_flags_targets st line with ⟨h1, h2⟩
      exact ⟨fun t ht => hi.1 t (h2 ▸ ht), fun t ht => hi.2 t (h1 ▸ ht)⟩

theorem exec_new_target_nodup (st : BuildState) (args source : List Char)
    (st' : BuildState) (h : exec_new_target st args source = some st')
    (hi : depsNodup st) : depsNodup st' := by
  have hfin := finalize_cur_nodup st hi
  simp only [exec_new_target] at h
  split at h
  · exact absurd h (by simp)
  · cases h
    refine ⟨fun t ht => hfin.1 t ht, ?_⟩
    intro t ht
    cases Option.some.injEq .. ▸ ht
    split
    · exact TARGET_add_dep_nodup _ _ List.nodup_nil
    · exact List.nodup_nil

theorem exec_pid_fixup_targets (st : BuildState) :
    (exec_pid_fixup st).finalized = st.finalized ∧
    (exec_pid_fixup st).cur_target = st.cur_target := by
  unfold exec_pid_fixup
  split <;> exact ⟨rfl, rfl⟩

theorem exec_register_targets (st : BuildState) (c : List Char) :
    (exec_register st c).finalized = st.finalized ∧
    (exec_register st c).cur_target = st.cur_target := by
  unfold exec_register
  split <;> exact ⟨rfl, rfl⟩

theorem exec_branch_nodup (st : BuildState) (args : List Char) (st' : BuildState)
    (h : exec_branch st args = some st') (hi : depsNodup st) : depsNodup st' := by
  have hkeep : ∀ stA : BuildState, stA.finalized = st.finalized →
      stA.cur_target = st.cur_target → depsNodup stA := by
    intro stA h1 h2
    exact ⟨fun t ht => hi.1 t (h1 ▸ ht), fun t ht => hi.2 t (h2 ▸ ht)⟩
  have h1 := exec_pid_fixup_targets st
  have h2 := exec_register_targets (exec_pid_fixup st) (parse_cmd_name args)
  have hmid : depsNodup (exec_register (exec_pid_fixup st) (parse_cmd_name args)) :=
    hkeep _ (h2.1.trans h1.1) (h2.2.trans h1.2)
  simp only [exec_branch] at h
  split at h
  · split at h
    · exact absurd h (by simp)
    · split at h
      · refine exec_new_target_nodup _ _ _ _ h ?_
        exact ⟨fun t ht => hmid.1 t ht, fun t ht => hmid.2 t ht⟩
      · cases h
        exact ⟨fun t ht => hmid.1 t ht, fun t ht => hmid.2 t ht⟩
  · cases h
    exact hkeep _ h1.1 h1.2

theorem stepLine_nodup (st : BuildState) (line : List Char) (st' : BuildState)
    (h : stepLine st line = some st') (hi : depsNodup st) : depsNodup st' := by
  have hup : ∀ p : Int, depsNodup { st with pid := p } := fun p => ⟨hi.1, hi.2⟩
  simp only [stepLine] at h
  cases h1 : (sscanf_execve line).1 <;> simp only [h1] at h <;>
    cases h2 : (sscanf_execve line).2 <;> simp only [h2] at h
  · exact else_branch_nodup _ _ _ h hi
  · split at h
    · exact else_branch_nodup _ _ _ h hi
    · exact exec_branch_nodup _ _ _ h hi
  · exact else_branch_nodup _ _ _ h (hup _)
  · split at h
    · exact else_branch_nodup _ _ _ h (hup _)
    · exact exec_branch_nodup _ _ _ h (hup _)

theorem runLines_nodup (lines : List (List Char)) :
    ∀ st st', runLines st lines = some st' → depsNodup st → depsNodup st' := by
  induction lines with
  | nil =>
    intro st st' h hi
    rw [runLines] at h
    cases h
    exact hi
  | cons l ls ih =>
    intro st st' h hi
    rw [runLines] at h
    cases hs : stepLine st l with
    | none => rw [hs] at h; exact absurd h (by simp)
    | some st1 => rw [hs] at h; exact ih st1 st' h (stepLine_nodup _ _ _ hs hi)

/-- C6: for every finalized target of a whole run, the dependency list has no
two entries equal as exact strings; and the list built by the
`TARGET_add_dep` insertions is exactly the sequence of first occurrences of
the added paths, i.e. entries appear in the order each path was first added. -/
theorem c6_deps_nodup_insertion_order (pwd0 : List Char) (lines : List (List Char))
    (st' : BuildState) (adds : List (List Char))
    (h : runTrace (initState pwd0) lines = some st') :
    (∀ t, t ∈ st'.finalized → t.deps.Nodup) ∧
    adds.foldl TARGET_add_dep [] = firstOccur adds := by
  constructor
  · have hinit : depsNodup (initState pwd0) := by
      constructor
      · intro t ht
        simp [initState] at ht
      · intro t ht
        simp [initState] at ht
    simp only [runTrace] at h
    cases hr : runLines (initState pwd0) lines with
    | none => rw [hr] at h; exact absurd h (by simp)
    | some st1 =>
      rw [hr] at h
      simp only [Option.map_some'] at h
      cases Option.some.inj h
      exact (finalize_cur_nodup st1 (runLines_nodup _ _ _ hr hinit)).1
  · have h1 := foldl_TARGET_add_dep adds []
    have hf : adds.filter (fun y => decide (y ∉ ([] : List (List Char)))) = adds :=
      List.filter_eq_self.mpr (fun a _ => by simp)
    rw [h1, hf]
    simp

/-- The final state of the run used to witness `c6_deps_nodup_insertion_order`. -/
def c6_wstate : BuildState :=
  { pid := 7, saved_pid := 7, vfork := false, pwd := chars ("/w"),
    fps_list := [(7, chars ("gcc"))], cur_target := none,
    finalized := [{ target_name := chars ("app"), cmd := chars ("gcc -o app app.c"),
                    deps := [chars ("app.c")] }],
    sourcesOut := [chars ("/w/app.c")], cmdsOut := [chars ("gcc -o app app.c")] }

theorem c6_deps_nodup_insertion_order_witness :
    (∀ t, t ∈ c6_wstate.finalized → t.deps.Nodup) ∧
    [chars ("a"), chars ("b"), chars ("a")].foldl TARGET_add_dep []
      = firstOccur [chars ("a"), chars ("b"), chars ("a")] :=
  c6_deps_nodup_insertion_order (chars ("/w"))
    [chars ("7 execve(\"/usr/bin/gcc\", [\"gcc\", \"-o\", \"app\", \"app.c\"]) = 0")]
    c6_wstate [chars ("a"), chars ("b"), chars ("a")] (by decide)

/-! ## The openat rule (C1, C7, C10) -/

/-- The exact condition under which an `openat` line's path is recorded
(record_build.c:616-633): the text from `openat(` on contains no `ENOENT`, the
current value of the `pid` variable — the integer parsed from this very line
when it begins with one — is registered or the text contains `.h` anywhere,
and no denylist fragment occurs in the text. -/
def openat_should_add (st : BuildState) (line tl : List Char) : Bool :=
  (!containsStr tl (chars ("ENOENT")) &&
    ((LIST_find_pid st.fps_list ((sscanf_execve line).1.getD st.pid)).isSome ||
      containsStr tl (chars (".h")))) && !openat_denylist tl

/-- Characterization of `stepLine` on a line that reaches the `openat` check:
not an execve match, no `chdir(`, and `openat(` present with tail `tl`. -/
theorem stepLine_openat (st : BuildState) (line tl : List Char)
    (hexec : (sscanf_execve line).2 = none)
    (hchdir : strstr line (chars ("chdir(")) = none)
    (hopen : strstr line (chars ("openat(")) = some tl) :
    stepLine st line =
      (if !containsStr tl (chars ("ENOENT")) &&
          ((LIST_find_pid st.fps_list ((sscanf_execve line).1.getD st.pid)).isSome ||
            containsStr tl (chars (".h"))) then
        if !openat_denylist tl then
          match st.cur_target with
          | some t =>
            some { st with
              pid := (sscanf_execve line).1.getD st.pid,
              cur_target := some { t with deps := TARGET_add_dep t.deps (openat_path tl) } }
          | none => none
        else some { st with pid := (sscanf_execve line).1.getD st.pid }
      else some (vfork_flags { st with pid := (sscanf_execve line).1.getD st.pid } line)) := by
  simp only [stepLine, hexec]
  cases h1 : (sscanf_execve line).1 with
  | none =>
    simp only [h1, Option.getD_none]
    simp only [else_branch, hchdir, hopen]
  | some p =>
    simp only [h1, Option.getD_some]
    simp only [else_branch, hchdir, hopen]

theorem else_branch_pids (st : BuildState) (line : List Char) (st' : BuildState)
    (h : else_branch st line = some st') :
    st'.pid = st.pid ∧ st'.saved_pid = st.saved_pid := by
  unfold else_branch at h
  split at h
  · cases h
    exact ⟨rfl, rfl⟩
  · split at h
    · split at h
      · split at h
        · split at h
          · cases h
            exact ⟨rfl, rfl⟩
          · exact absurd h (by simp)
        · cases h
          exact ⟨rfl, rfl⟩
      · cases h
        unfold vfork_flags
        split
        · exact ⟨rfl, rfl⟩
        · split
          · exact ⟨rfl, rfl⟩
          · exact ⟨rfl, rfl⟩
    · cases h
      unfold vfork_flags
      split
      · exact ⟨rfl, rfl⟩
      · split
        · exact ⟨rfl, rfl⟩
        · exact ⟨rfl, rfl⟩

/-- C1 (amended): on a line routed to the openat check while a current target
exists, the extracted path is added to the current target's dependency list if
and only if the openat text has no `ENOENT`, the pid parsed from the line
itself is a registered compiler pid or the openat text contains `.h` anywhere
(a substring test, not a suffix test), and the openat text contains no
denylist fragment. -/
theorem c1_openat_add_iff (st : BuildState) (line tl : List Char) (t : BTarget)
    (hexec : (sscanf_execve line).2 = none)
    (hchdir : strstr line (chars ("chdir(")) = none)
    (hopen : strstr line (chars ("openat(")) = some tl)
    (htar : st.cur_target = some t) :
    ∃ st', stepLine st line = some st' ∧
      ∃ t', st'.cur_target = some t' ∧
        t'.deps = (if openat_should_add st line tl then
                    TARGET_add_dep t.deps (openat_path tl) else t.deps) ∧
        (openat_path tl ∈ t'.deps ↔
          (openat_should_add st line tl = true ∨ openat_path tl ∈ t.deps)) := by
  rw [stepLine_openat st line tl hexec hchdir hopen]
  by_cases hA : (!containsStr tl (chars ("ENOENT")) &&
      ((LIST_find_pid st.fps_list ((sscanf_execve line).1.getD st.pid)).isSome ||
        containsStr tl (chars (".h")))) = true
  · by_cases hD : openat_denylist tl = true
    · have hcond : openat_should_add st line tl = false := by
        unfold openat_should_add
        rw [hA, hD]
        rfl
      refine ⟨_, by rw [hA, hD, htar]; rfl, t, rfl, ?_, ?_⟩
      · simp [hcond]
      · simp [hcond]
    · have hD' : openat_denylist tl = false := Bool.eq_false_iff.mpr hD
      have hcond : openat_should_add st line tl = true := by
        unfold openat_should_add
        rw [hA, hD']
        rfl
      rw [hA, hD', htar]
      refine ⟨_, rfl, _, rfl, ?_, ?_⟩
      · simp [hcond]
      · simp [hcond, mem_TARGET_add_dep]
  · have hA' : (!containsStr tl (chars ("ENOENT")) &&
        ((LIST_find_pid st.fps_list ((sscanf_execve line).1.getD st.pid)).isSome ||
          containsStr tl (chars (".h")))) = false := Bool.eq_false_iff.mpr hA
    have hcond : openat_should_add st line tl = false := by
      unfold openat_should_add
      rw [hA']
      rfl
    rw [hA']
    have hvt := vfork_flags_targets
      { st with pid := (sscanf_execve line).1.getD st.pid } line
    refine ⟨_, rfl, t, ?_, ?_, ?_⟩
    · rw [hvt.1]
      exact htar
    · simp [hcond]
    · simp [hcond]

/-- The state and line used to witness `c1_openat_add_iff`. -/
def c1_wtarget : BTarget :=
  { target_name := chars ("prog"), cmd := chars ("gcc -o prog main.c"),
    deps := [chars ("main.c")] }

def c1_wstate : BuildState :=
  { initState (chars ("/w")) with cur_target := some c1_wtarget }

def c1_wline : List Char := chars ("99 openat(AT_FDCWD, \"config.h.in\", O_RDONLY) = 3")

def c1_wtl : List Char := chars ("openat(AT_FDCWD, \"config.h.in\", O_RDONLY) = 3")

theorem c1_openat_add_iff_witness :
    ∃ st', stepLine c1_wstate c1_wline = some st' ∧
      ∃ t', st'.cur_target = some t' ∧
        t'.deps = (if openat_should_add c1_wstate c1_wline c1_wtl then
                    TARGET_add_dep c1_wtarget.deps (openat_path c1_wtl)
                  else c1_wtarget.deps) ∧
        (openat_path c1_wtl ∈ t'.deps ↔
          (openat_should_add c1_wstate c1_wline c1_wtl = true ∨
            openat_path c1_wtl ∈ c1_wtarget.deps)) :=
  c1_openat_add_iff c1_wstate c1_wline c1_wtl c1_wtarget
    (by decide) (by decide) (by decide) (by decide)

/-- C10 (amended): on any line that begins with an integer yet does not match
the execve format — every `openat` line in particular — the pid variable ends
up holding the integer parsed from that very line (the `%d` conversion is
stored even though the full format fails), and the saved execve pid is left
untouched; the vfork substitution applies only inside the execve branch. -/
theorem c10_line_own_pid (st : BuildState) (line : List Char) (p : Int)
    (h1 : (sscanf_execve line).1 = some p)
    (h2 : (sscanf_execve line).2 = none)
    (st' : BuildState) (h : stepLine st line = some st') :
    st'.pid = p ∧ st'.saved_pid = st.saved_pid := by
  simp only [stepLine, h1, h2] at h
  exact else_branch_pids _ _ _ h

def c10_wstate : BuildState :=
  { initState (chars ("/w")) with saved_pid := 42, vfork := true }

def c10_wline : List Char := chars ("99 openat(AT_FDCWD, \"foo.bin\", O_RDONLY) = 3")

theorem c10_line_own_pid_witness :
    ({ c10_wstate with pid := 99 } : BuildState).pid = 99 ∧
    ({ c10_wstate with pid := 99 } : BuildState).saved_pid = c10_wstate.saved_pid :=
  c10_line_own_pid c10_wstate c10_wline 99 (by decide) (by decide)
    { c10_wstate with pid := 99 } (by decide)

/-! ## The denylist screen on the openat rule (C7) -/

/-- The six denylisted fragments of record_build.c:622-624. -/
def deny_fragments : List (List Char) :=
  [chars ("locale"), chars ("/etc/"), chars ("/types/"), chars (".cache"),
   chars ("/bits/"), chars ("/tmp/")]

/-- The extracted openat path sits contiguously inside the openat text. -/
theorem openat_path_inside_tail (tl : List Char) :
    tl.take 18 ++ openat_path tl ++ (tl.drop 18).dropWhile (fun c => c ≠ '"') = tl := by
  unfold openat_path
  rw [List.append_assoc, List.takeWhile_append_dropWhile, List.take_append_drop]

/-- A denylisted fragment inside the extracted path forces the denylist test
on the whole openat text to fire. -/
theorem openat_denylist_of_path (tl frag : List Char)
    (hf : frag ∈ deny_fragments)
    (hc : containsStr (openat_path tl) frag = true) :
    openat_denylist tl = true := by
  have hin : containsStr tl frag = true :=
    containsStr_mono _ _ _ hc (tl.take 18)
      ((tl.drop 18).dropWhile (fun c => c ≠ '"')) (openat_path_inside_tail tl)
  simp only [deny_fragments, List.mem_cons, List.not_mem_nil, or_false] at hf
  rcases hf with rfl | rfl | rfl | rfl | rfl | rfl <;>
    simp [openat_denylist, hin]

/-- C7 (amended): on the `OpenAttempt` rule the denylist screen is airtight —
an extracted openat path containing any denylisted fragment is never added,
whatever the pid: the current target is left exactly as it was.  (The
compiler-invocation source-extraction rule applies no such screen; see the
accompanying counterexample.) -/
theorem c7_openat_denylist_screen (st : BuildState) (line tl frag : List Char)
    (t : BTarget)
    (hexec : (sscanf_execve line).2 = none)
    (hchdir : strstr line (chars ("chdir(")) = none)
    (hopen : strstr line (chars ("openat(")) = some tl)
    (htar : st.cur_target = some t)
    (hf : frag ∈ deny_fragments)
    (hc : containsStr (openat_path tl) frag = true) :
    ∃ st', stepLine st line = some st' ∧ st'.cur_target = some t := by
  rw [stepLine_openat st line tl hexec hchdir hopen]
  have hd : openat_denylist tl = true := openat_denylist_of_path tl frag hf hc
  by_cases hA : (!containsStr tl (chars ("ENOENT")) &&
      ((LIST_find_pid st.fps_list ((sscanf_execve line).1.getD st.pid)).isSome ||
        containsStr tl (chars (".h")))) = true
  · refine ⟨{ st with pid := (sscanf_execve line).1.getD st.pid }, ?_, htar⟩
    simp [hA, hd]
  · have hA' := Bool.eq_false_iff.mpr hA
    rw [hA']
    refine ⟨_, rfl, ?_⟩
    rw [(vfork_flags_targets _ _).1]
    exact htar

def c7_wstate : BuildState :=
  { initState (chars ("/w")) with cur_target := some c1_wtarget, fps_list := [(7, chars ("gcc"))] }

def c7_wline : List Char := chars ("7 openat(AT_FDCWD, \"/tmp/x.h\", O_RDONLY) = 3")

def c7_wtl : List Char := chars ("openat(AT_FDCWD, \"/tmp/x.h\", O_RDONLY) = 3")

theorem c7_openat_denylist_screen_witness :
    ∃ st', stepLine c7_wstate c7_wline = some st' ∧ st'.cur_target = some c1_wtarget :=
  c7_openat_denylist_screen c7_wstate c7_wline c7_wtl (chars ("/tmp/")) c1_wtarget
    (by decide) (by decide) (by decide) (by decide) (by decide) (by decide)

/-! ## Suffix priority in `extract_sources` (C8) -/

theorem walk_back_spec (line : List Char) :
    ∀ f i len, (walk_back line f i len).1 ≤ f ∧
      (walk_back line f i len).2 = len + (f - (walk_back line f i len).1) := by
  intro f
  induction f with
  | zero =>
    intro i len
    simp [walk_back]
  | succ f ih =>
    intro i len
    rw [walk_back]
    split
    · split
      · simp
      · obtain ⟨h1, h2⟩ := ih (i + 1) (len + 1)
        refine ⟨Nat.le_succ_of_le h1, ?_⟩
        rw [h2]
        omega
    · simp

/-- Whatever `suffix_block` returns ends exactly at the end of the matched
suffix: the pattern is a suffix of the returned name. -/
theorem suffix_block_suffix (line pat s : List Char)
    (h : suffix_block line pat = some s) : ∃ pre, pre ++ pat = s := by
  unfold suffix_block at h
  cases hst : strstr line pat with
  | none =>
    rw [hst] at h
    exact absurd h (by simp)
  | some tl =>
    rw [hst] at h
    simp only at h
    rcases strstr_eq_some line pat tl hst with ⟨⟨A, hA⟩, rest, hrest⟩
    have hlen : line.length = A.length + tl.length := by rw [← hA]; simp
    have hd : line.length - tl.length = A.length := by omega
    rw [hd] at h
    obtain ⟨hr1, hr2⟩ := walk_back_spec line A.length 0 pat.length
    set r1 := (walk_back line A.length 0 pat.length).1 with hre1
    set r2 := (walk_back line A.length 0 pat.length).2 with hre2
    have hs : s = (line.drop r1).take r2 := (Option.some.inj h).symm
    have hstep : line.drop r1 = A.drop r1 ++ tl := by
      rw [← hA, List.drop_append_eq_append_drop]
      have h0 : r1 - A.length = 0 := by omega
      rw [h0, List.drop_zero]
    have hlen2 : (A.drop r1).length = A.length - r1 := by simp
    have htake : (A.drop r1 ++ tl).take r2 = A.drop r1 ++ tl.take pat.length := by
      rw [List.take_append_eq_append_take]
      congr 1
      · apply List.take_of_length_le
        rw [hlen2]
        omega
      · congr 1
        rw [hlen2]
        omega
    have hpat : tl.take pat.length = pat := by
      rw [← hrest]
      exact List.take_left pat rest
    exact ⟨A.drop r1, by rw [hs, hstep, htake, hpat]⟩

theorem suffix_block_none_iff (line pat : List Char) :
    suffix_block line pat = none ↔ containsStr line pat = false := by
  unfold suffix_block containsStr
  cases strstr line pat <;> simp

theorem contains_cc_imp_c (line : List Char)
    (h : containsStr line (chars (".cc")) = true) :
    containsStr line (chars (".c")) = true := by
  rcases (containsStr_iff _ _).mp h with ⟨pre, post, hp⟩
  refine (containsStr_iff _ _).mpr ⟨pre, 'c' :: post, ?_⟩
  rw [← hp]
  have hcc : chars (".cc") = chars (".c") ++ ['c'] := rfl
  rw [hcc]
  simp

/-- C8 (amended): `extract_sources` checks `.cc`, then `.c`, then `.o`, then
`.s`, returning the first match, and the returned name always ends exactly
with the matched suffix — in particular a line containing `.cc` is handled by
the `.cc` rule and its result ends in `.cc`, never a bare `.c`
categorization.  (The backward walk that recovers the name heads towards the
opening quote but can stop halfway; see the accompanying counterexample.) -/
theorem c8_suffix_priority (line : List Char) :
    (containsStr line (chars (".cc")) = true →
      ∃ s, extract_sources line = some s ∧ ∃ pre, pre ++ chars (".cc") = s) ∧
    (containsStr line (chars (".cc")) = false → containsStr line (chars (".c")) = true →
      ∃ s, extract_sources line = some s ∧ ∃ pre, pre ++ chars (".c") = s) ∧
    (containsStr line (chars (".c")) = false → containsStr line (chars (".o")) = true →
      ∃ s, extract_sources line = some s ∧ ∃ pre, pre ++ chars (".o") = s) ∧
    (containsStr line (chars (".c")) = false → containsStr line (chars (".o")) = false →
      containsStr line (chars (".s")) = true →
      ∃ s, extract_sources line = some s ∧ ∃ pre, pre ++ chars (".s") = s) := by
  refine ⟨?_, ?_, ?_, ?_⟩
  · intro hcc
    cases hb : suffix_block line (chars (".cc")) with
    | none => rw [(suffix_block_none_iff _ _).mp hb] at hcc; cases hcc
    | some s =>
      refine ⟨s, ?_, suffix_block_suffix _ _ _ hb⟩
      unfold extract_sources
      rw [hb]
  · intro hcc hc
    have hb1 : suffix_block line (chars (".cc")) = none := (suffix_block_none_iff _ _).mpr hcc
    cases hb : suffix_block line (chars (".c")) with
    | none => rw [(suffix_block_none_iff _ _).mp hb] at hc; cases hc
    | some s =>
      refine ⟨s, ?_, suffix_block_suffix _ _ _ hb⟩
      unfold extract_sources
      rw [hb1, hb]
  · intro hc ho
    have hcc : containsStr line (chars (".cc")) = false := by
      cases hcc : containsStr line (chars (".cc")) with
      | false => rfl
      | true => rw [contains_cc_imp_c line hcc] at hc; cases hc
    have hb1 : suffix_block line (chars (".cc")) = none := (suffix_block_none_iff _ _).mpr hcc
    have hb2 : suffix_block line (chars (".c")) = none := (suffix_block_none_iff _ _).mpr hc
    cases hb : suffix_block line (chars (".o")) with
    | none => rw [(suffix_block_none_iff _ _).mp hb] at ho; cases ho
    | some s =>
      refine ⟨s, ?_, suffix_block_suffix _ _ _ hb⟩
      unfold extract_sources
      rw [hb1, hb2, hb]
  · intro hc ho hs
    have hcc : containsStr line (chars (".cc")) = false := by
      cases hcc : containsStr line (chars (".cc")) with
      | false => rfl
      | true => rw [contains_cc_imp_c line hcc] at hc; cases hc
    have hb1 : suffix_block line (chars (".cc")) = none := (suffix_block_none_iff _ _).mpr hcc
    have hb2 : suffix_block line (chars (".c")) = none := (suffix_block_none_iff _ _).mpr hc
    have hb3 : suffix_block line (chars (".o")) = none := (suffix_block_none_iff _ _).mpr ho
    cases hb : suffix_block line (chars (".s")) with
    | none => rw [(suffix_block_none_iff _ _).mp hb] at hs; cases hs
    | some s =>
      refine ⟨s, ?_, suffix_block_suffix _ _ _ hb⟩
      unfold extract_sources
      rw [hb1, hb2, hb3, hb]

theorem c8_suffix_priority_witness :
    ∃ s, extract_sources (chars ("x \"sub/a.cc\" y.c")) = some s ∧
      ∃ pre, pre ++ chars (".cc") = s :=
  (c8_suffix_priority (chars ("x \"sub/a.cc\" y.c"))).1 (by decide)

/-! ## Sandbox copy round-trip (C9) -/

/-- Once the sandbox already holds the right bytes at a path, later copies
can only rewrite that path with the same bytes (or not touch it). -/
theorem TARGET_copy_deps_persist (fs : FS) (cw : List Char → Bool) (sp key : List Char)
    (bs : List Nat) :
    ∀ deps : List (List Char),
      (∀ d', d' ∈ deps → new_path sp d' = key → fs d' = some bs) →
      ∀ sb : FS, sb key = some bs → TARGET_copy_deps deps fs cw sp sb key = some bs := by
  intro deps
  induction deps with
  | nil =>
    intro _ sb hsb
    rw [TARGET_copy_deps]
    exact hsb
  | cons e rest ih =>
    intro halias sb hsb
    have hrest : ∀ d', d' ∈ rest → new_path sp d' = key → fs d' = some bs :=
      fun d' hd' => halias d' (List.mem_cons_of_mem _ hd')
    rw [TARGET_copy_deps]
    cases hfe : fs e with
    | none => exact ih hrest sb hsb
    | some be =>
      simp only
      by_cases hk : new_path sp e = key
      · have hbe : fs e = some bs := halias e (List.mem_cons_self _ _) hk
        rw [hfe] at hbe
        cases Option.some.inj hbe
        by_cases hcw : cw (new_path sp e) = true
        · rw [if_pos hcw]
          apply ih hrest
          unfold fsWrite
          rw [if_pos hk.symm, copyLoop_id]
        · rw [if_neg hcw]
          exact ih hrest sb hsb
      · by_cases hcw : cw (new_path sp e) = true
        · rw [if_pos hcw]
          apply ih hrest
          unfold fsWrite
          rw [if_neg (fun hkk => hk hkk.symm)]
          exact hsb
        · rw [if_neg hcw]
          exact ih hrest sb hsb

/-- C9 (amended): for every dependency whose source can be opened, provided no
*other* dependency entry resolves to the same sandbox path (an absolute path
and its slash-less twin collide), the sandbox copy holds exactly the source's
bytes — the 512-byte read/write loop is a byte-for-byte round trip — and
unopenable dependencies anywhere in the list are skipped without disturbing
the copies of the remaining dependencies. -/
theorem c9_copy_roundtrip (fs : FS) (cw : List Char → Bool) (sp d : List Char)
    (bs : List Nat) (_hfs : fs d = some bs) (hw : cw (new_path sp d) = true) :
    ∀ deps : List (List Char), d ∈ deps →
      (∀ d', d' ∈ deps → new_path sp d' = new_path sp d → fs d' = some bs) →
      ∀ sb : FS, TARGET_copy_deps deps fs cw sp sb (new_path sp d) = some bs := by
  intro deps
  induction deps with
  | nil =>
    intro hd _ _
    cases hd
  | cons e rest ih =>
    intro hd halias sb
    have hrest : ∀ d', d' ∈ rest → new_path sp d' = new_path sp d → fs d' = some bs :=
      fun d' hd' => halias d' (List.mem_cons_of_mem _ hd')
    rw [TARGET_copy_deps]
    by_cases hk : new_path sp e = new_path sp d
    · have hfe : fs e = some bs := halias e (List.mem_cons_self _ _) hk
      rw [hfe]
      simp only
      rw [hk, if_pos hw]
      apply TARGET_copy_deps_persist fs cw sp (new_path sp d) bs rest hrest
      unfold fsWrite
      rw [if_pos rfl, copyLoop_id]
    · have hdr : d ∈ rest := by
        rcases List.mem_cons.mp hd with rfl | h'
        · exact absurd rfl hk
        · exact h'
      cases hfe : fs e with
      | none => exact ih hdr hrest sb
      | some be =>
        simp only
        by_cases hcw : cw (new_path sp e) = true
        · rw [if_pos hcw]
          exact ih hdr hrest _
        · rw [if_neg hcw]
          exact ih hdr hrest sb

/-- The file system used in the C9 counterexample and witness. -/
def c9_wfs : FS := fun p =>
  if p = chars ("b.c") then some [7, 8] else none

theorem c9_copy_roundtrip_witness :
    TARGET_copy_deps [chars ("missing.c"), chars ("b.c")] c9_wfs (fun _ => true)
      (chars ("/sb")) (fun _ => none) (new_path (chars ("/sb")) (chars ("b.c")))
      = some [7, 8] :=
  c9_copy_roundtrip c9_wfs (fun _ => true) (chars ("/sb")) (chars ("b.c")) [7, 8]
    (by decide) (by decide) [chars ("missing.c"), chars ("b.c")]
    (by decide) (by decide) (fun _ => none)

/-- C9 counterexample: the dependency entries `/a` and `a` are distinct exact
strings, both openable, with different contents, yet they resolve to the same
sandbox path; after the copy pass the sandbox file holds the bytes of `a`, so
the sandbox copy of dependency `/a` is not byte-identical to its source. -/
def c9_alias_fs : FS := fun p =>
  if p = chars ("/a") then some [1] else if p = chars ("a") then some [2] else none

theorem c9_alias_overwrite :
    TARGET_copy_deps [chars ("/a"), chars ("a")] c9_alias_fs (fun _ => true)
      (chars ("/sb")) (fun _ => none) (chars ("/sb/a")) = some [2] ∧
    c9_alias_fs (chars ("/a")) = some [1] ∧
    new_path (chars ("/sb")) (chars ("/a")) = chars ("/sb/a") ∧
    new_path (chars ("/sb")) (chars ("a")) = chars ("/sb/a") ∧
    ([2] : List Nat) ≠ [1] := by
  refine ⟨?_, by decide, by decide, by decide, by decide⟩
  rw [TARGET_copy_deps]
  rw [show c9_alias_fs (chars ("/a")) = some [1] from by decide]
  simp only
  rw [if_pos trivial]
  rw [TARGET_copy_deps]
  rw [show c9_alias_fs (chars ("a")) = some [2] from by decide]
  simp only
  rw [if_pos trivial]
  rw [TARGET_copy_deps]
  unfold fsWrite
  rw [copyLoop_id]
  rw [if_pos (by decide)]
